import Mathlib

/-!
Verification development for the mcp-calculator server (src/app.py).

The application registers fifteen tools on a FastMCP server.  Every tool
wraps its computation in a try/except block and returns a Python dict:
on success a dict with one or more result keys, on failure a dict whose
single key "error" holds the string form of the caught exception.

Shallow embedding conventions:
- Python floats are modelled as exact rationals; float rounding is not
  modelled.  The float constants math.pi and math.e are embedded with
  their exact rational values.
- Exceptions are modelled by Except String; the try/except wrapper is
  the function pyTry below.
- Values that Python computes with irrational operations (square roots,
  t-distribution quantiles) are carried symbolically by the inductive
  type RTerm and interpreted into the reals by RTerm.evalR.
- eval over the restricted namespace of the calculate tool is modelled
  by a tokenizer, a recursive-descent parser for the Python arithmetic
  expression grammar, and the evaluator evalPy over the same
  name-to-value table that appears in src/app.py lines 62-74.
- Library calls (numpy, scipy, sympy) are modelled by Lean functions
  over exact rationals, restricted to the fragments the claims exercise;
  each such model notes its restrictions in its doc comment.
-/

namespace MCPCalc

/-- Symbolic real-valued terms: results of Python float computations that
involve irrational functions (numpy square roots, scipy t-distribution
quantiles).  Interpreted into the reals by RTerm.evalR. -/
inductive RTerm where
  | rat (q : ℚ)
  | nanR
  | sqrt (t : RTerm)
  | add (a b : RTerm)
  | sub (a b : RTerm)
  | mul (a b : RTerm)
  | div (a b : RTerm)
  | tppf (p : ℚ) (df : ℤ)
deriving DecidableEq

/-- Python runtime values that can appear inside a tool response dict
or during evaluation in the restricted namespace.  boolv and nonev are
the keyword constants; emptyDict is the empty dict, the only dict
object reachable from the restricted namespace (it is the value bound
to the builtins key of the globals table). -/
inductive Value where
  | num (q : ℚ)
  | boolv (b : Bool)
  | nonev
  | emptyDict
  | nan
  | str (s : String)
  | rterm (t : RTerm)
  | pairv (a b : Value)
  | matv (m : List (List ℚ))
  | module (name : String)
  | funcv (name : String)
  | app1 (f : String) (a : Value)
  | app2 (f : String) (a b : Value)
deriving DecidableEq

/-- A Python dict as returned by the tools: an association list from
string keys to values. -/
abbrev PyDict : Type := List (String × Value)

/-- Model of the uniform try/except wrapper around every tool body: a
normally completed body returns its dict; a raised exception e is
converted to the dict with the single key "error" holding str(e). -/
def pyTry (body : Except String PyDict) : PyDict :=
  match body with
  | .ok d => d
  | .error e => [("error", Value.str e)]

/-- A single-quote character, as a string. -/
def sq : String := String.singleton (Char.ofNat 39)

/-! ## The calculate tool: restricted eval (src/app.py lines 33-77) -/

/-- Abstract syntax of the Python arithmetic expression fragment accepted
by the calculate tool: integer literals, names, unary minus, the binary
operators of the docstring, and calls of one or two arguments.  Calls of
other arities are outside the modelled fragment (every function in the
restricted namespace takes one or two arguments).  The keywords True,
False and None are compiled as constants, not names, as in CPython;
the compiler also folds the identifier __debug__ into the constant
True. -/
inductive PyExpr where
  | num (n : ℕ)
  | pyTrue
  | pyFalse
  | pyNone
  | name (s : String)
  | neg (e : PyExpr)
  | add (a b : PyExpr)
  | sub (a b : PyExpr)
  | mul (a b : PyExpr)
  | div (a b : PyExpr)
  | mod (a b : PyExpr)
  | pow (a b : PyExpr)
  | call1 (f a : PyExpr)
  | call2 (f a b : PyExpr)
deriving DecidableEq

/-- Tokens of the expression grammar. -/
inductive Tok where
  | int (n : ℕ)
  | ident (s : String)
  | plus
  | minus
  | star
  | dblstar
  | slash
  | percent
  | lparen
  | rparen
  | comma
deriving DecidableEq

def isIdentStart (c : Char) : Bool := c.isAlpha || c = '_'

def isIdentChar (c : Char) : Bool := c.isAlphanum || c = '_'

def digitsToNat (ds : List Char) : ℕ :=
  ds.foldl (fun a c => 10 * a + (c.toNat - 48)) 0

/-- Tokenizer for the expression fragment, with explicit fuel. -/
def tokenizeAux : ℕ → List Char → Option (List Tok)
  | 0, _ => none
  | _, [] => some []
  | fuel + 1, c :: cs =>
    if c = ' ' then tokenizeAux fuel cs
    else if c.isDigit then
      let ds := (c :: cs).takeWhile Char.isDigit
      let rest := (c :: cs).dropWhile Char.isDigit
      do pure (Tok.int (digitsToNat ds) :: (← tokenizeAux fuel rest))
    else if isIdentStart c then
      let ds := (c :: cs).takeWhile isIdentChar
      let rest := (c :: cs).dropWhile isIdentChar
      do pure (Tok.ident (String.mk ds) :: (← tokenizeAux fuel rest))
    else if c = '*' then
      match cs with
      | '*' :: cs2 => do pure (Tok.dblstar :: (← tokenizeAux fuel cs2))
      | _ => do pure (Tok.star :: (← tokenizeAux fuel cs))
    else if c = '+' then do pure (Tok.plus :: (← tokenizeAux fuel cs))
    else if c = '-' then do pure (Tok.minus :: (← tokenizeAux fuel cs))
    else if c = '/' then do pure (Tok.slash :: (← tokenizeAux fuel cs))
    else if c = '%' then do pure (Tok.percent :: (← tokenizeAux fuel cs))
    else if c = '(' then do pure (Tok.lparen :: (← tokenizeAux fuel cs))
    else if c = ')' then do pure (Tok.rparen :: (← tokenizeAux fuel cs))
    else if c = ',' then do pure (Tok.comma :: (← tokenizeAux fuel cs))
    else none

def tokenize (s : String) : Option (List Tok) :=
  tokenizeAux (s.length + 1) s.data

mutual

/-- Additive level of the Python expression grammar. -/
def pExpr : ℕ → List Tok → Option (PyExpr × List Tok)
  | 0, _ => none
  | f + 1, ts => do
    let (e, ts1) ← pTerm f ts
    pExprLoop f e ts1

def pExprLoop : ℕ → PyExpr → List Tok → Option (PyExpr × List Tok)
  | 0, _, _ => none
  | f + 1, e, ts =>
    match ts with
    | .plus :: ts1 => do
      let (r, ts2) ← pTerm f ts1
      pExprLoop f (.add e r) ts2
    | .minus :: ts1 => do
      let (r, ts2) ← pTerm f ts1
      pExprLoop f (.sub e r) ts2
    | _ => some (e, ts)

/-- Multiplicative level. -/
def pTerm : ℕ → List Tok → Option (PyExpr × List Tok)
  | 0, _ => none
  | f + 1, ts => do
    let (e, ts1) ← pFactor f ts
    pTermLoop f e ts1

def pTermLoop : ℕ → PyExpr → List Tok → Option (PyExpr × List Tok)
  | 0, _, _ => none
  | f + 1, e, ts =>
    match ts with
    | .star :: ts1 => do
      let (r, ts2) ← pFactor f ts1
      pTermLoop f (.mul e r) ts2
    | .slash :: ts1 => do
      let (r, ts2) ← pFactor f ts1
      pTermLoop f (.div e r) ts2
    | .percent :: ts1 => do
      let (r, ts2) ← pFactor f ts1
      pTermLoop f (.mod e r) ts2
    | _ => some (e, ts)

/-- Unary level. -/
def pFactor : ℕ → List Tok → Option (PyExpr × List Tok)
  | 0, _ => none
  | f + 1, ts =>
    match ts with
    | .minus :: ts1 => do
      let (e, ts2) ← pFactor f ts1
      some (.neg e, ts2)
    | _ => pPower f ts

/-- Power level: the right operand of ** is a unary factor, as in Python. -/
def pPower : ℕ → List Tok → Option (PyExpr × List Tok)
  | 0, _ => none
  | f + 1, ts => do
    let (b, ts1) ← pPrimary f ts
    match ts1 with
    | .dblstar :: ts2 => do
      let (e, ts3) ← pFactor f ts2
      some (PyExpr.pow b e, ts3)
    | _ => some (b, ts1)

def pPrimary : ℕ → List Tok → Option (PyExpr × List Tok)
  | 0, _ => none
  | f + 1, ts => do
    let (a, ts1) ← pAtom f ts
    pTrailer f a ts1

/-- Call trailers on a primary expression: one or two arguments. -/
def pTrailer : ℕ → PyExpr → List Tok → Option (PyExpr × List Tok)
  | 0, _, _ => none
  | f + 1, a, ts =>
    match ts with
    | .lparen :: ts1 => do
      let (e1, ts2) ← pExpr f ts1
      match ts2 with
      | .rparen :: ts3 => pTrailer f (.call1 a e1) ts3
      | .comma :: ts3 => do
        let (e2, ts4) ← pExpr f ts3
        match ts4 with
        | .rparen :: ts5 => pTrailer f (.call2 a e1 e2) ts5
        | _ => none
      | _ => none
    | _ => some (a, ts)

def pAtom : ℕ → List Tok → Option (PyExpr × List Tok)
  | 0, _ => none
  | f + 1, ts =>
    match ts with
    | .int n :: ts1 => some (.num n, ts1)
    | .ident s :: ts1 =>
      if s = "True" then some (.pyTrue, ts1)
      else if s = "False" then some (.pyFalse, ts1)
      else if s = "None" then some (.pyNone, ts1)
      else if s = "__debug__" then some (.pyTrue, ts1)
      else some (.name s, ts1)
    | .lparen :: ts1 => do
      let (e, ts2) ← pExpr f ts1
      match ts2 with
      | .rparen :: ts3 => some (e, ts3)
      | _ => none
    | _ => none

end

/-- Parse a whole string as one expression, consuming all tokens. -/
def parseExpr (s : String) : Option PyExpr := do
  let ts ← tokenize s
  match pExpr (10 * (ts.length + 1)) ts with
  | some (e, []) => some e
  | _ => none

/-- Exact rational value of the Python float math.pi. -/
def piFloat : ℚ := 884279719003555 / 281474976710656

/-- Exact rational value of the Python float math.e. -/
def eFloat : ℚ := 6121026514868073 / 2251799813685248

/-- The locals dict passed to eval in src/app.py lines 62-74: the
modules math and np, seven math functions, and the constants pi and
e. -/
def calcEnv : List (String × Value) :=
  [("math", .module "math"), ("np", .module "numpy"),
   ("sin", .funcv "sin"), ("cos", .funcv "cos"), ("tan", .funcv "tan"),
   ("exp", .funcv "exp"), ("log", .funcv "log"), ("log10", .funcv "log10"),
   ("sqrt", .funcv "sqrt"), ("pi", .num piFloat), ("e", .num eFloat)]

/-- The globals dict passed to eval in src/app.py line 62: it binds the
single key __builtins__ to an empty dict, so the builtins namespace is
empty but the key itself resolves as a bare name. -/
def calcGlobals : List (String × Value) :=
  [("__builtins__", Value.emptyDict)]

/-- Bare-name resolution in eval, as CPython performs it for code with
free names: the locals dict first, then the globals dict; the builtins
namespace supplied by the globals is empty, so nothing further
resolves. -/
def lookupName (n : String) : Option Value :=
  match calcEnv.lookup n with
  | some v => some v
  | none => calcGlobals.lookup n

def nameErrMsg (n : String) : String :=
  "name " ++ (sq ++ (n ++ (sq ++ " is not defined")))

def typeErrMsg : String := "unsupported operand type(s)"

/-- Python floor modulo on rationals. -/
def pyMod (x y : ℚ) : ℚ := x - y * (Int.floor (x / y))

/-- The numeric reading of a value, when it has one: Python bool is an
int subclass, so True and False take part in arithmetic as 1 and 0. -/
def Value.asNum? : Value → Option ℚ
  | .num q => some q
  | .boolv b => some (if b then 1 else 0)
  | _ => none

/-- Python numeric addition, subtraction and multiplication on values. -/
def binNum (op : ℚ → ℚ → ℚ) (a b : Value) : Except String Value :=
  match a.asNum?, b.asNum? with
  | some x, some y => .ok (.num (op x y))
  | _, _ => .error typeErrMsg

def divVal (a b : Value) : Except String Value :=
  match a.asNum?, b.asNum? with
  | some x, some y =>
    if y = 0 then .error "division by zero" else .ok (.num (x / y))
  | _, _ => .error typeErrMsg

def modVal (a b : Value) : Except String Value :=
  match a.asNum?, b.asNum? with
  | some x, some y =>
    if y = 0 then .error "modulo by zero" else .ok (.num (pyMod x y))
  | _, _ => .error typeErrMsg

/-- Python power on numbers.  Integer exponents are modelled exactly;
fractional exponents are outside the modelled fragment. -/
def powVal (a b : Value) : Except String Value :=
  match a.asNum?, b.asNum? with
  | some x, some y =>
    if y.den = 1 then
      if 0 ≤ y.num then .ok (.num (x ^ y.num.toNat))
      else if x = 0 then .error "zero cannot be raised to a negative power"
      else .ok (.num (x ^ y.num))
    else .error "model restriction: noninteger exponent"
  | _, _ => .error typeErrMsg

def negVal (a : Value) : Except String Value :=
  match a.asNum? with
  | some x => .ok (.num (-x))
  | none => .error typeErrMsg

/-- Calling a function value from the restricted namespace yields a
symbolic application; calling any other value is a TypeError.  The
numeric results of the math functions are not needed by any claim and
are left symbolic. -/
def callVal1 (f a : Value) : Except String Value :=
  match f with
  | .funcv n => .ok (.app1 n a)
  | _ => .error "object is not callable"

def callVal2 (f a b : Value) : Except String Value :=
  match f with
  | .funcv n => .ok (.app2 n a b)
  | _ => .error "object is not callable"

/-- Evaluator for the restricted eval of the calculate tool: names are
looked up in calcEnv only (the globals dict holds an empty builtins
table), and operands are evaluated left to right before each operator
is applied, as in CPython. -/
def evalPy : PyExpr → Except String Value
  | .num n => .ok (.num n)
  | .pyTrue => .ok (.boolv true)
  | .pyFalse => .ok (.boolv false)
  | .pyNone => .ok .nonev
  | .name s =>
    match lookupName s with
    | some v => .ok v
    | none => .error (nameErrMsg s)
  | .neg e => do negVal (← evalPy e)
  | .add a b => do binNum (· + ·) (← evalPy a) (← evalPy b)
  | .sub a b => do binNum (· - ·) (← evalPy a) (← evalPy b)
  | .mul a b => do binNum (· * ·) (← evalPy a) (← evalPy b)
  | .div a b => do divVal (← evalPy a) (← evalPy b)
  | .mod a b => do modVal (← evalPy a) (← evalPy b)
  | .pow a b => do powVal (← evalPy a) (← evalPy b)
  | .call1 f a => do callVal1 (← evalPy f) (← evalPy a)
  | .call2 f a b => do callVal2 (← evalPy f) (← evalPy a) (← evalPy b)

def pySyntaxMsg : String := "invalid syntax (SyntaxError)"

/-- The calculate tool (src/app.py lines 33-77): evaluate the expression
string in the restricted namespace; any exception becomes an error
payload. -/
def calculate (expression : String) : PyDict :=
  pyTry <| do
    let e ← match parseExpr expression with
      | some e => Except.ok e
      | none => Except.error pySyntaxMsg
    let v ← evalPy e
    .ok [("result", v)]

/-- All names referenced by an expression, including called names; the
keyword constants are not names. -/
def namesOf : PyExpr → List String
  | .num _ => []
  | .pyTrue => []
  | .pyFalse => []
  | .pyNone => []
  | .name s => [s]
  | .neg e => namesOf e
  | .add a b => namesOf a ++ namesOf b
  | .sub a b => namesOf a ++ namesOf b
  | .mul a b => namesOf a ++ namesOf b
  | .div a b => namesOf a ++ namesOf b
  | .mod a b => namesOf a ++ namesOf b
  | .pow a b => namesOf a ++ namesOf b
  | .call1 f a => namesOf f ++ namesOf a
  | .call2 f a b => namesOf f ++ namesOf a ++ namesOf b

/-! ## Polynomials over ℚ as coefficient lists (model of the sympy
fragment exercised by the symbolic tools).  Index i holds the
coefficient of the i-th power of the variable. -/

def polyAdd : List ℚ → List ℚ → List ℚ
  | [], q => q
  | p, [] => p
  | a :: p, b :: q => (a + b) :: polyAdd p q

def polyNeg (p : List ℚ) : List ℚ := p.map Neg.neg

def polySub (p q : List ℚ) : List ℚ := polyAdd p (polyNeg q)

def polyScale (c : ℚ) (p : List ℚ) : List ℚ := p.map (c * ·)

def polyMul : List ℚ → List ℚ → List ℚ
  | [], _ => []
  | a :: p, q => polyAdd (polyScale a q) (0 :: polyMul p q)

def polyPow (p : List ℚ) : ℕ → List ℚ
  | 0 => [1]
  | n + 1 => polyMul p (polyPow p n)

/-- Drop trailing zero coefficients. -/
def normPoly : List ℚ → List ℚ
  | [] => []
  | c :: cs =>
    match normPoly cs with
    | [] => if c = 0 then [] else [c]
    | ds => c :: ds

/-- Horner evaluation of a coefficient list. -/
def polyEval (p : List ℚ) (x : ℚ) : ℚ :=
  p.foldr (fun c acc => c + x * acc) 0

/-- The value of a constant polynomial, if the polynomial is constant. -/
def polyConst? (p : List ℚ) : Option ℚ :=
  match normPoly p with
  | [] => some 0
  | [c] => some c
  | _ => none

/-- Interpret a parsed expression as a polynomial in the variable v.
Model of sympify restricted to the polynomial fragment: expressions
with other symbols, function calls, non-constant divisors or exponents
are outside the model and map to model-restriction errors (sympy would
return non-polynomial symbolic expressions there; no claim depends on
that region). -/
def toPoly (v : String) : PyExpr → Except String (List ℚ)
  | .num n => .ok [(n : ℚ)]
  | .pyTrue => .error "model restriction: unsupported constant"
  | .pyFalse => .error "model restriction: unsupported constant"
  | .pyNone => .error "model restriction: unsupported constant"
  | .name s =>
    if s = v then .ok [0, 1] else .error "model restriction: unsupported symbol"
  | .neg e => do .ok (polyNeg (← toPoly v e))
  | .add a b => do .ok (polyAdd (← toPoly v a) (← toPoly v b))
  | .sub a b => do .ok (polySub (← toPoly v a) (← toPoly v b))
  | .mul a b => do .ok (polyMul (← toPoly v a) (← toPoly v b))
  | .div a b => do
    let p ← toPoly v a
    let q ← toPoly v b
    match polyConst? q with
    | some c =>
      if c = 0 then .error "model restriction: division by zero"
      else .ok (polyScale c⁻¹ p)
    | none => .error "model restriction: nonpolynomial division"
  | .mod _ _ => .error "model restriction: unsupported operator"
  | .pow a b => do
    let p ← toPoly v a
    let q ← toPoly v b
    match polyConst? q with
    | some c =>
      if c.den = 1 ∧ 0 ≤ c.num then .ok (polyPow p c.num.toNat)
      else .error "model restriction: unsupported exponent"
    | none => .error "model restriction: unsupported exponent"
  | .call1 _ _ => .error "model restriction: unsupported function"
  | .call2 _ _ _ => .error "model restriction: unsupported function"

def sympifyErrMsg : String := "Sympify of expression failed"

/-- Model of sympify on an input string: parse, then read off the
polynomial in the variable v. -/
def sympifyPoly (v : String) (s : String) : Except String (List ℚ) :=
  match parseExpr s with
  | none => .error sympifyErrMsg
  | some e => toPoly v e

/-- Print a rational the way sympy prints it: integers bare, otherwise
numerator/denominator. -/
def printQ (q : ℚ) : String :=
  if q.den = 1 then toString q.num
  else toString q.num ++ "/" ++ toString q.den

/-- The magnitude part of one printed monomial: coefficient a/b (with
a, b positive naturals) times the deg-th power of v, in sympy
notation. -/
def monoStr (v : String) (deg a b : ℕ) : String :=
  let xp := if deg = 1 then v else v ++ "**" ++ toString deg
  let core :=
    if deg = 0 then toString a
    else if a = 1 then xp
    else toString a ++ "*" ++ xp
  if b = 1 then core else core ++ "/" ++ toString b

/-- Print a normalized coefficient list the way sympy prints the
polynomial: terms in decreasing degree joined with signed plus and
minus. -/
def printPoly (v : String) (p : List ℚ) : String :=
  let ts := (p.enum.filter (fun ic => ic.2 ≠ 0)).reverse
  match ts with
  | [] => "0"
  | (d0, c0) :: rest =>
    let first := (if c0 < 0 then "-" else "") ++ monoStr v d0 c0.num.natAbs c0.den
    rest.foldl
      (fun acc dc =>
        acc ++ (if dc.2 < 0 then " - " else " + ") ++ monoStr v dc.1 dc.2.num.natAbs dc.2.den)
      first

/-- Coefficients of the derivative, starting at power k. -/
def derivFrom (k : ℚ) : List ℚ → List ℚ
  | [] => []
  | c :: cs => k * c :: derivFrom (k + 1) cs

/-- Model of sympy diff on polynomials. -/
def polyDeriv (p : List ℚ) : List ℚ := derivFrom 1 (p.drop 1)

/-- Coefficients of the antiderivative divided by powers starting at k. -/
def integFrom (k : ℚ) : List ℚ → List ℚ
  | [] => []
  | c :: cs => c / k :: integFrom (k + 1) cs

/-- Model of sympy integrate on polynomials: no integration constant. -/
def polyInteg (p : List ℚ) : List ℚ := 0 :: integFrom 1 p

/-- Rational square root, when it exists exactly. -/
def ratSqrt (q : ℚ) : Option ℚ :=
  if 0 ≤ q ∧ Nat.sqrt q.num.toNat * Nat.sqrt q.num.toNat = q.num.toNat
      ∧ Nat.sqrt q.den * Nat.sqrt q.den = q.den then
    some ((Nat.sqrt q.num.toNat : ℚ) / (Nat.sqrt q.den : ℚ))
  else none

/-- Model of sympy solve on polynomials of degree at most two with
rational roots: the empty list for trivial or constant equations, the
root of a linear polynomial, the sorted distinct roots of a quadratic.
Irrational or complex roots and higher degrees are outside the model
(sympy returns radical expressions there; no claim depends on that
region). -/
def polySolve (p : List ℚ) : Except String (List ℚ) :=
  match normPoly p with
  | [] => .ok []
  | [_] => .ok []
  | [c, b] => .ok [-c / b]
  | [c, b, a] =>
    match ratSqrt (b ^ 2 - 4 * a * c) with
    | some s =>
      if s = 0 then .ok [-b / (2 * a)]
      else if (-b - s) / (2 * a) ≤ (-b + s) / (2 * a) then
        .ok [(-b - s) / (2 * a), (-b + s) / (2 * a)]
      else
        .ok [(-b + s) / (2 * a), (-b - s) / (2 * a)]
    | none => .error "model restriction: irrational or complex roots"
  | _ => .error "model restriction: degree above two"

/-- Serialize a solution list the way str applied to a sympy list
prints it. -/
def printSolutions (sols : List ℚ) : String :=
  "[" ++ String.intercalate ", " (sols.map printQ) ++ "]"

def missingEqMsg : String :=
  "Equation must contain an " ++ (sq ++ ("=" ++ (sq ++ " sign")))

/-- Split a character list at every occurrence of the separator, as the
Python str.split method does with a one-character separator. -/
def splitOnChar (sep : Char) : List Char → List (List Char)
  | [] => [[]]
  | c :: rest =>
    let r := splitOnChar sep rest
    if c = sep then [] :: r
    else
      match r with
      | [] => [[c]]
      | g :: gs => (c :: g) :: gs

/-- Model of the Python str.split method with a one-character
separator. -/
def pySplit (sep : Char) (s : String) : List String :=
  (splitOnChar sep s.data).map String.mk

/-- Model of the Python str.strip method: remove leading and trailing
whitespace. -/
def pyStrip (s : String) : String :=
  String.mk (((s.data.dropWhile Char.isWhitespace).reverse.dropWhile
    Char.isWhitespace).reverse)

/-- The solve_equation tool (src/app.py lines 80-125): split on the
equality sign, require exactly two parts, sympify both sides and solve
left minus right for x. -/
def solve_equation (equation : String) : PyDict :=
  pyTry <| do
    let parts := pySplit '=' equation
    if parts.length ≠ 2 then
      .ok [("error", Value.str missingEqMsg)]
    else do
      let left ← sympifyPoly "x" (pyStrip (parts.getD 0 ""))
      let right ← sympifyPoly "x" (pyStrip (parts.getD 1 ""))
      let sols ← polySolve (polySub left right)
      .ok [("solutions", Value.str (printSolutions sols))]

/-- The differentiate tool (src/app.py lines 128-167), on the polynomial
fragment; the variable argument defaults to x at the call sites below. -/
def differentiate (expression : String) (v : String) : PyDict :=
  pyTry <| do
    let p ← sympifyPoly v expression
    .ok [("result", Value.str (printPoly v (normPoly (polyDeriv p))))]

/-- The integrate tool (src/app.py lines 172-212), on the polynomial
fragment. -/
def integrate (expression : String) (v : String) : PyDict :=
  pyTry <| do
    let p ← sympifyPoly v expression
    .ok [("result", Value.str (printPoly v (normPoly (polyInteg p))))]

/-! ## Statistics tools (src/app.py lines 215-413) -/

/-- Finite-or-nan result of a numpy float computation. -/
inductive RVal where
  | fin (q : ℚ)
  | nan
deriving DecidableEq

def RVal.toValue : RVal → Value
  | .fin q => .num q
  | .nan => .nan

/-- Model of np.mean: sum over size; the empty list yields nan, as the
float division zero by zero does. -/
def nmean (data : List ℚ) : RVal :=
  if data.length = 0 then .nan else .fin (data.sum / data.length)

/-- Model of np.var: the mean of the squared deviations from the mean
(numpy default ddof zero). -/
def nvar (data : List ℚ) : RVal :=
  match nmean data with
  | .nan => .nan
  | .fin m => nmean (data.map fun x => (x - m) ^ 2)

/-- The mean tool (src/app.py lines 215-237). -/
def mean (data : List ℚ) : PyDict :=
  pyTry (.ok [("result", (nmean data).toValue)])

/-- The variance tool (src/app.py lines 240-260). -/
def variance (data : List ℚ) : PyDict :=
  pyTry (.ok [("result", (nvar data).toValue)])

/-- The standard_deviation tool (src/app.py lines 263-283): np.std is
the square root of np.var, carried symbolically. -/
def standard_deviation (data : List ℚ) : PyDict :=
  pyTry (.ok [("result",
    match nvar data with
    | .nan => Value.nan
    | .fin q => Value.rterm (.sqrt (.rat q)))])

def insertSorted (x : ℚ) : List ℚ → List ℚ
  | [] => [x]
  | y :: ys => if x ≤ y then x :: y :: ys else y :: insertSorted x ys

def sortQ : List ℚ → List ℚ
  | [] => []
  | x :: xs => insertSorted x (sortQ xs)

/-- Model of np.median: middle of the sorted data, or the average of
the two middle elements; nan on empty input. -/
def medianVal (data : List ℚ) : RVal :=
  let s := sortQ data
  let n := s.length
  if n = 0 then .nan
  else if n % 2 = 1 then .fin (s.getD (n / 2) 0)
  else .fin ((s.getD (n / 2 - 1) 0 + s.getD (n / 2) 0) / 2)

/-- The median tool (src/app.py lines 286-306). -/
def median (data : List ℚ) : PyDict :=
  pyTry (.ok [("result", (medianVal data).toValue)])

def countQ (l : List ℚ) (q : ℚ) : ℕ := (l.filter (fun y => y = q)).length

def maxCount (l : List ℚ) : ℕ := (l.map (countQ l)).foldr max 0

def modeCandidates (l : List ℚ) : List ℚ :=
  l.filter (fun x => countQ l x = maxCount l)

def listMin : List ℚ → ℚ
  | [] => 0
  | x :: xs => xs.foldl min x

/-- Model of scipy.stats.mode on a non-empty list: the most frequent
value, and the smallest such value when several are tied. -/
def modeVal (l : List ℚ) : ℚ := listMin (modeCandidates l)

/-- The mode tool (src/app.py lines 309-336): empty input is rejected
inside the try block with an explicit error dict before scipy is
called. -/
def mode (data : List ℚ) : PyDict :=
  pyTry <| do
    if data = [] then
      .ok [("error", Value.str "Cannot compute mode of empty array")]
    else
      .ok [("result", Value.num (modeVal data))]

/-- The correlation_coefficient tool (src/app.py lines 339-360):
np.corrcoef raises on mismatched lengths; the Pearson coefficient is
carried symbolically since it divides by square roots.  The ratio is
unaffected by the normalization constant, so plain sums of products of
deviations are used. -/
def correlation_coefficient (data_x data_y : List ℚ) : PyDict :=
  pyTry <| do
    if data_x.length ≠ data_y.length then
      .error "all the input array dimensions must match exactly"
    else if data_x.length = 0 then
      .ok [("result", Value.nan)]
    else
      let mx := data_x.sum / data_x.length
      let my := data_y.sum / data_y.length
      let cov := ((data_x.zip data_y).map (fun p => (p.1 - mx) * (p.2 - my))).sum
      let vx := (data_x.map (fun x => (x - mx) ^ 2)).sum
      let vy := (data_y.map (fun y => (y - my) ^ 2)).sum
      .ok [("result",
        Value.rterm (.div (.rat cov) (.mul (.sqrt (.rat vx)) (.sqrt (.rat vy)))))]

/-- The linear_regression tool (src/app.py lines 363-385): ordinary
least squares via scipy.stats.linregress, which raises on empty input
and on identical x values. -/
def linear_regression (data : List (ℚ × ℚ)) : PyDict :=
  pyTry <| do
    if data.length = 0 then
      .error "Inputs must not be empty."
    else
      let xs := data.map Prod.fst
      let ys := data.map Prod.snd
      let mx := xs.sum / xs.length
      let my := ys.sum / ys.length
      let sxx := (xs.map (fun x => (x - mx) ^ 2)).sum
      let sxy := (data.map (fun p => (p.1 - mx) * (p.2 - my))).sum
      if sxx = 0 then
        .error "Cannot calculate a linear regression if all x values are identical"
      else
        let slope := sxy / sxx
        .ok [("slope", Value.num slope), ("intercept", Value.num (my - slope * mx))]

/-- Sample variance with ddof one, as used by scipy.stats.sem. -/
def sampleVar (data : List ℚ) : ℚ :=
  (data.map (fun x => (x - data.sum / data.length) ^ 2)).sum / ((data.length : ℚ) - 1)

/-- The mean as a symbolic real term. -/
def meanT (data : List ℚ) : RTerm :=
  if data.length = 0 then .nanR else .rat (data.sum / data.length)

/-- Model of scipy.stats.sem: sample standard deviation over the square
root of the sample size; nan when fewer than two points. -/
def semT (data : List ℚ) : RTerm :=
  if data.length ≤ 1 then .nanR
  else .div (.sqrt (.rat (sampleVar data))) (.sqrt (.rat (data.length : ℚ)))

/-- The confidence_interval tool (src/app.py lines 388-413): mean plus
or minus the standard error times the t-distribution quantile at
(1 + confidence) / 2 with size - 1 degrees of freedom.  The quantile
has no closed form; it stays symbolic as RTerm.tppf. -/
def confidence_interval (data : List ℚ) (confidence : ℚ) : PyDict :=
  pyTry <| do
    let m := meanT data
    let moe := RTerm.mul (semT data) (.tppf ((1 + confidence) / 2) ((data.length : ℤ) - 1))
    .ok [("confidence_interval",
      Value.pairv (.rterm (.sub m moe)) (.rterm (.add m moe)))]

/-- Real interpretation of symbolic terms, parametrized by the
t-distribution quantile function ppf.  nanR has no real counterpart
and is mapped to zero; the claims interpret only nan-free terms. -/
noncomputable def RTerm.evalR (ppf : ℚ → ℤ → ℝ) : RTerm → ℝ
  | .rat q => (q : ℝ)
  | .nanR => 0
  | .sqrt t => Real.sqrt (t.evalR ppf)
  | .add a b => a.evalR ppf + b.evalR ppf
  | .sub a b => a.evalR ppf - b.evalR ppf
  | .mul a b => a.evalR ppf * b.evalR ppf
  | .div a b => a.evalR ppf / b.evalR ppf
  | .tppf p df => ppf p df

/-! ## Matrix tools (src/app.py lines 416-484) -/

/-- Whether a nested list is a rectangular array; numpy raises on
ragged nested lists. -/
def isRect (m : List (List ℚ)) : Bool :=
  match m with
  | [] => true
  | r :: rs => rs.all (fun s => s.length = r.length)

/-- Model of np.transpose followed by tolist on a rectangular nested
list. -/
def transposeMat (m : List (List ℚ)) : List (List ℚ) :=
  (List.range ((m.headD []).length)).map (fun j => m.map (fun row => row.getD j 0))

/-- The matrix_addition tool (src/app.py lines 416-437).  Model
restriction: numpy broadcasting between different shapes is not
modelled; equal shapes add elementwise, anything else is the library
error. -/
def matrix_addition (matrix_a matrix_b : List (List ℚ)) : PyDict :=
  pyTry <| do
    if isRect matrix_a ∧ isRect matrix_b
        ∧ matrix_a.length = matrix_b.length
        ∧ (matrix_a.headD []).length = (matrix_b.headD []).length then
      .ok [("result", Value.matv ((matrix_a.zip matrix_b).map
        (fun rr => (rr.1.zip rr.2).map (fun ab => ab.1 + ab.2))))]
    else
      .error "operands could not be broadcast together"

def dotQ (a b : List ℚ) : ℚ := ((a.zip b).map (fun p => p.1 * p.2)).sum

/-- The matrix_multiplication tool (src/app.py lines 440-461): np.dot
requires the inner dimensions to agree. -/
def matrix_multiplication (matrix_a matrix_b : List (List ℚ)) : PyDict :=
  pyTry <| do
    if isRect matrix_a ∧ isRect matrix_b
        ∧ (matrix_a.headD []).length = matrix_b.length then
      .ok [("result", Value.matv (matrix_a.map
        (fun row => (transposeMat matrix_b).map (fun col => dotQ row col))))]
    else
      .error "shapes not aligned or inhomogeneous input"

/-- The matrix_transpose tool (src/app.py lines 464-484). -/
def matrix_transpose (matrix : List (List ℚ)) : PyDict :=
  pyTry <| do
    if isRect matrix then
      .ok [("result", Value.matv (transposeMat matrix))]
    else
      .error "setting an array element with a sequence"

/-- Modelled from the spec: the divide tool is not in src/app.py (it
belongs to the arithmetic-tool version of the server described in spec
sections 1, 4.2 and 8).  Per the spec it fails with a domain error when
the divisor is exactly zero, detected proactively, and otherwise
returns the quotient; the spec fixes no message text. -/
def divide (a b : ℚ) : PyDict :=
  pyTry <| do
    if b = 0 then
      .error "Division by zero is not allowed"
    else
      .ok [("result", Value.num (a / b))]

/-! ## The tool registry (the fifteen functions registered on the
FastMCP app in src/app.py) -/

/-- One invocation of a registered tool with arguments of its declared
parameter types. -/
inductive ToolCall where
  | calculate (expression : String)
  | solve_equation (equation : String)
  | differentiate (expression v : String)
  | integrate (expression v : String)
  | mean (data : List ℚ)
  | variance (data : List ℚ)
  | standard_deviation (data : List ℚ)
  | median (data : List ℚ)
  | mode (data : List ℚ)
  | correlation_coefficient (data_x data_y : List ℚ)
  | linear_regression (data : List (ℚ × ℚ))
  | confidence_interval (data : List ℚ) (confidence : ℚ)
  | matrix_addition (matrix_a matrix_b : List (List ℚ))
  | matrix_multiplication (matrix_a matrix_b : List (List ℚ))
  | matrix_transpose (matrix : List (List ℚ))

/-- Dispatch an invocation to the registered tool function. -/
def dispatch : ToolCall → PyDict
  | .calculate e => calculate e
  | .solve_equation e => solve_equation e
  | .differentiate e v => differentiate e v
  | .integrate e v => integrate e v
  | .mean d => mean d
  | .variance d => variance d
  | .standard_deviation d => standard_deviation d
  | .median d => median d
  | .mode d => mode d
  | .correlation_coefficient x y => correlation_coefficient x y
  | .linear_regression d => linear_regression d
  | .confidence_interval d c => confidence_interval d c
  | .matrix_addition a b => matrix_addition a b
  | .matrix_multiplication a b => matrix_multiplication a b
  | .matrix_transpose m => matrix_transpose m

/-- The result keys that appear in the success dicts of the registered
tools. -/
def successKeys : List String :=
  ["result", "solutions", "slope", "intercept", "confidence_interval"]

/-- An error payload: exactly the single key "error" holding a string. -/
def isErrorPayload (d : PyDict) : Prop :=
  ∃ s, d = [("error", Value.str s)]

/-- A success payload: non-empty, no "error" key, and every key drawn
from the declared result keys. -/
def isSuccessPayload (d : PyDict) : Prop :=
  d ≠ [] ∧ ∀ kv ∈ d, kv.1 ∈ successKeys

/-! ## Helper lemmas -/

@[simp] theorem ok_bind {α β : Type} (a : α) (f : α → Except String β) :
    (Except.ok a >>= f : Except String β) = f a := rfl

@[simp] theorem error_bind {α β : Type} (e : String) (f : α → Except String β) :
    (Except.error e >>= f : Except String β) = .error e := rfl

theorem errPayload (s : String) : isErrorPayload [("error", Value.str s)] :=
  ⟨s, rfl⟩

theorem succPayload1 (k : String) (v : Value) (hk : k ∈ successKeys) :
    isSuccessPayload [(k, v)] := by
  refine ⟨by simp, ?_⟩
  intro kv hkv
  simp only [List.mem_singleton] at hkv
  subst hkv
  exact hk

theorem succPayload2 (k1 k2 : String) (v1 v2 : Value)
    (h1 : k1 ∈ successKeys) (h2 : k2 ∈ successKeys) :
    isSuccessPayload [(k1, v1), (k2, v2)] := by
  refine ⟨by simp, ?_⟩
  intro kv hkv
  rcases List.mem_cons.mp hkv with h | h
  · subst h; exact h1
  · simp only [List.mem_singleton] at h
    subst h; exact h2

theorem shape_calculate (e : String) :
    isErrorPayload (calculate e) ∨ isSuccessPayload (calculate e) := by
  cases hp : parseExpr e with
  | none =>
    exact .inl ⟨pySyntaxMsg, by simp [calculate, hp, pyTry]⟩
  | some ast =>
    cases hv : evalPy ast with
    | error m =>
      exact .inl ⟨m, by simp [calculate, hp, hv, pyTry]⟩
    | ok v =>
      have hc : calculate e = [("result", v)] := by simp [calculate, hp, hv, pyTry]
      exact .inr (hc ▸ succPayload1 "result" v (by simp [successKeys]))

theorem shape_solve_equation (e : String) :
    isErrorPayload (solve_equation e) ∨ isSuccessPayload (solve_equation e) := by
  by_cases hl : (pySplit '=' e).length = 2
  · obtain ⟨l, r, hlr⟩ := List.length_eq_two.mp hl
    cases h1 : sympifyPoly "x" (pyStrip l) with
    | error m => exact .inl ⟨m, by simp [solve_equation, hlr, h1, pyTry]⟩
    | ok left =>
      cases h2 : sympifyPoly "x" (pyStrip r) with
      | error m => exact .inl ⟨m, by simp [solve_equation, hlr, h1, h2, pyTry]⟩
      | ok right =>
        cases h3 : polySolve (polySub left right) with
        | error m => exact .inl ⟨m, by simp [solve_equation, hlr, h1, h2, h3, pyTry]⟩
        | ok sols =>
          have hc : solve_equation e = [("solutions", Value.str (printSolutions sols))] := by
            simp [solve_equation, hlr, h1, h2, h3, pyTry]
          exact .inr (hc ▸ succPayload1 _ _ (by simp [successKeys]))
  · exact .inl ⟨missingEqMsg, by simp [solve_equation, hl, pyTry]⟩

theorem shape_differentiate (e v : String) :
    isErrorPayload (differentiate e v) ∨ isSuccessPayload (differentiate e v) := by
  cases h : sympifyPoly v e with
  | error m => exact .inl ⟨m, by simp [differentiate, h, pyTry]⟩
  | ok p =>
    have hc : differentiate e v
        = [("result", Value.str (printPoly v (normPoly (polyDeriv p))))] := by
      simp [differentiate, h, pyTry]
    exact .inr (hc ▸ succPayload1 _ _ (by simp [successKeys]))

theorem shape_integrate (e v : String) :
    isErrorPayload (integrate e v) ∨ isSuccessPayload (integrate e v) := by
  cases h : sympifyPoly v e with
  | error m => exact .inl ⟨m, by simp [integrate, h, pyTry]⟩
  | ok p =>
    have hc : integrate e v
        = [("result", Value.str (printPoly v (normPoly (polyInteg p))))] := by
      simp [integrate, h, pyTry]
    exact .inr (hc ▸ succPayload1 _ _ (by simp [successKeys]))

theorem pyTry_shape (body : Except String PyDict)
    (h : ∀ d, body = .ok d → isErrorPayload d ∨ isSuccessPayload d) :
    isErrorPayload (pyTry body) ∨ isSuccessPayload (pyTry body) := by
  cases body with
  | ok d => exact h d rfl
  | error e => exact .inl ⟨e, rfl⟩

theorem shape_mode (d : List ℚ) :
    isErrorPayload (mode d) ∨ isSuccessPayload (mode d) := by
  unfold mode
  refine pyTry_shape _ ?_
  intro p hp
  split at hp
  · cases hp
    exact .inl (errPayload _)
  · cases hp
    exact .inr (succPayload1 _ _ (by simp [successKeys]))

theorem shape_correlation (x y : List ℚ) :
    isErrorPayload (correlation_coefficient x y)
      ∨ isSuccessPayload (correlation_coefficient x y) := by
  unfold correlation_coefficient
  refine pyTry_shape _ ?_
  intro p hp
  split at hp
  · cases hp
  · split at hp
    · cases hp
      exact .inr (succPayload1 _ _ (by simp [successKeys]))
    · cases hp
      exact .inr (succPayload1 _ _ (by simp [successKeys]))

theorem shape_linear_regression (d : List (ℚ × ℚ)) :
    isErrorPayload (linear_regression d) ∨ isSuccessPayload (linear_regression d) := by
  unfold linear_regression
  refine pyTry_shape _ ?_
  intro p hp
  split at hp
  · cases hp
  · simp only [] at hp
    split at hp
    · cases hp
    · cases hp
      exact .inr (succPayload2 _ _ _ _ (by simp [successKeys]) (by simp [successKeys]))

theorem shape_matrix_addition (a b : List (List ℚ)) :
    isErrorPayload (matrix_addition a b) ∨ isSuccessPayload (matrix_addition a b) := by
  unfold matrix_addition
  refine pyTry_shape _ ?_
  intro p hp
  split at hp
  · cases hp
    exact .inr (succPayload1 _ _ (by simp [successKeys]))
  · cases hp

theorem shape_matrix_multiplication (a b : List (List ℚ)) :
    isErrorPayload (matrix_multiplication a b)
      ∨ isSuccessPayload (matrix_multiplication a b) := by
  unfold matrix_multiplication
  refine pyTry_shape _ ?_
  intro p hp
  split at hp
  · cases hp
    exact .inr (succPayload1 _ _ (by simp [successKeys]))
  · cases hp

theorem shape_matrix_transpose (m : List (List ℚ)) :
    isErrorPayload (matrix_transpose m) ∨ isSuccessPayload (matrix_transpose m) := by
  unfold matrix_transpose
  refine pyTry_shape _ ?_
  intro p hp
  split at hp
  · cases hp
    exact .inr (succPayload1 _ _ (by simp [successKeys]))
  · cases hp

/-- C1: for every registered tool and every argument values of the
declared parameter types, the invocation returns either a success
payload (non-empty, with every key among the declared result keys) or
an error payload (the single key "error" holding the exception
message); no invocation propagates an exception past the tool
boundary, since every tool is a total function into response dicts. -/
theorem C1_tool_payload_shape (c : ToolCall) :
    isErrorPayload (dispatch c) ∨ isSuccessPayload (dispatch c) := by
  cases c with
  | calculate e => exact shape_calculate e
  | solve_equation e => exact shape_solve_equation e
  | differentiate e v => exact shape_differentiate e v
  | integrate e v => exact shape_integrate e v
  | mean d => exact .inr (succPayload1 _ _ (by simp [successKeys]))
  | variance d => exact .inr (succPayload1 _ _ (by simp [successKeys]))
  | standard_deviation d => exact .inr (succPayload1 _ _ (by simp [successKeys]))
  | median d => exact .inr (succPayload1 _ _ (by simp [successKeys]))
  | mode d => exact shape_mode d
  | correlation_coefficient x y => exact shape_correlation x y
  | linear_regression d => exact shape_linear_regression d
  | confidence_interval d c => exact .inr (succPayload1 _ _ (by simp [successKeys]))
  | matrix_addition a b => exact shape_matrix_addition a b
  | matrix_multiplication a b => exact shape_matrix_multiplication a b
  | matrix_transpose m => exact shape_matrix_transpose m

/-- C10: on the empty list, mean, variance, standard_deviation and
median each return a success payload holding the nan value rather than
an error payload, while mode alone rejects the empty input with its
explicit error payload. -/
theorem C10_empty_list_statistics :
    mean [] = [("result", Value.nan)] ∧
    variance [] = [("result", Value.nan)] ∧
    standard_deviation [] = [("result", Value.nan)] ∧
    median [] = [("result", Value.nan)] ∧
    mode [] = [("error", Value.str "Cannot compute mode of empty array")] := by
  refine ⟨rfl, rfl, rfl, rfl, rfl⟩

theorem lookup_isSome_iff (l : List (String × Value)) (n : String) :
    (l.lookup n).isSome ↔ n ∈ l.map Prod.fst := by
  induction l with
  | nil => simp [List.lookup]
  | cons p l ih =>
    obtain ⟨k, v⟩ := p
    by_cases h : n = k
    · subst h
      simp [List.lookup]
    · simp [List.lookup, beq_false_of_ne h, ih, h]

/-- An expression that references a name with no binding in the
restricted namespace always evaluates to an exception: every operand is
evaluated before its operator applies, so the name lookup is reached
unless an earlier exception pre-empts it. -/
theorem evalPy_error_of_badName :
    ∀ e : PyExpr, ∀ n : String, n ∈ namesOf e → lookupName n = none →
      ∃ m, evalPy e = .error m := by
  intro e
  induction e with
  | num k =>
    intro n hn _
    simp [namesOf] at hn
  | pyTrue =>
    intro n hn _
    simp [namesOf] at hn
  | pyFalse =>
    intro n hn _
    simp [namesOf] at hn
  | pyNone =>
    intro n hn _
    simp [namesOf] at hn
  | name s =>
    intro n hn hl
    simp only [namesOf, List.mem_singleton] at hn
    subst hn
    exact ⟨nameErrMsg n, by simp [evalPy, hl]⟩
  | neg a ih =>
    intro n hn hl
    obtain ⟨m, hm⟩ := ih n (by simpa [namesOf] using hn) hl
    exact ⟨m, by simp [evalPy, hm]⟩
  | add a b iha ihb =>
    intro n hn hl
    rcases List.mem_append.mp (by simpa [namesOf] using hn) with h | h
    · obtain ⟨m, hm⟩ := iha n h hl
      exact ⟨m, by simp [evalPy, hm]⟩
    · cases hA : evalPy a with
      | error m => exact ⟨m, by simp [evalPy, hA]⟩
      | ok v =>
        obtain ⟨m, hm⟩ := ihb n h hl
        exact ⟨m, by simp [evalPy, hA, hm]⟩
  | sub a b iha ihb =>
    intro n hn hl
    rcases List.mem_append.mp (by simpa [namesOf] using hn) with h | h
    · obtain ⟨m, hm⟩ := iha n h hl
      exact ⟨m, by simp [evalPy, hm]⟩
    · cases hA : evalPy a with
      | error m => exact ⟨m, by simp [evalPy, hA]⟩
      | ok v =>
        obtain ⟨m, hm⟩ := ihb n h hl
        exact ⟨m, by simp [evalPy, hA, hm]⟩
  | mul a b iha ihb =>
    intro n hn hl
    rcases List.mem_append.mp (by simpa [namesOf] using hn) with h | h
    · obtain ⟨m, hm⟩ := iha n h hl
      exact ⟨m, by simp [evalPy, hm]⟩
    · cases hA : evalPy a with
      | error m => exact ⟨m, by simp [evalPy, hA]⟩
      | ok v =>
        obtain ⟨m, hm⟩ := ihb n h hl
        exact ⟨m, by simp [evalPy, hA, hm]⟩
  | div a b iha ihb =>
    intro n hn hl
    rcases List.mem_append.mp (by simpa [namesOf] using hn) with h | h
    · obtain ⟨m, hm⟩ := iha n h hl
      exact ⟨m, by simp [evalPy, hm]⟩
    · cases hA : evalPy a with
      | error m => exact ⟨m, by simp [evalPy, hA]⟩
      | ok v =>
        obtain ⟨m, hm⟩ := ihb n h hl
        exact ⟨m, by simp [evalPy, hA, hm]⟩
  | mod a b iha ihb =>
    intro n hn hl
    rcases List.mem_append.mp (by simpa [namesOf] using hn) with h | h
    · obtain ⟨m, hm⟩ := iha n h hl
      exact ⟨m, by simp [evalPy, hm]⟩
    · cases hA : evalPy a with
      | error m => exact ⟨m, by simp [evalPy, hA]⟩
      | ok v =>
        obtain ⟨m, hm⟩ := ihb n h hl
        exact ⟨m, by simp [evalPy, hA, hm]⟩
  | pow a b iha ihb =>
    intro n hn hl
    rcases List.mem_append.mp (by simpa [namesOf] using hn) with h | h
    · obtain ⟨m, hm⟩ := iha n h hl
      exact ⟨m, by simp [evalPy, hm]⟩
    · cases hA : evalPy a with
      | error m => exact ⟨m, by simp [evalPy, hA]⟩
      | ok v =>
        obtain ⟨m, hm⟩ := ihb n h hl
        exact ⟨m, by simp [evalPy, hA, hm]⟩
  | call1 f a ihf iha =>
    intro n hn hl
    rcases List.mem_append.mp (by simpa [namesOf] using hn) with h | h
    · obtain ⟨m, hm⟩ := ihf n h hl
      exact ⟨m, by simp [evalPy, hm]⟩
    · cases hF : evalPy f with
      | error m => exact ⟨m, by simp [evalPy, hF]⟩
      | ok v =>
        obtain ⟨m, hm⟩ := iha n h hl
        exact ⟨m, by simp [evalPy, hF, hm]⟩
  | call2 f a b ihf iha ihb =>
    intro n hn hl
    have hn3 : n ∈ namesOf f ∨ n ∈ namesOf a ∨ n ∈ namesOf b := by
      simpa [namesOf, List.mem_append, or_assoc] using hn
    rcases hn3 with h | h | h
    · obtain ⟨m, hm⟩ := ihf n h hl
      exact ⟨m, by simp [evalPy, hm]⟩
    · cases hF : evalPy f with
      | error m => exact ⟨m, by simp [evalPy, hF]⟩
      | ok v =>
        obtain ⟨m, hm⟩ := iha n h hl
        exact ⟨m, by simp [evalPy, hF, hm]⟩
    · cases hF : evalPy f with
      | error m => exact ⟨m, by simp [evalPy, hF]⟩
      | ok v =>
        cases hA : evalPy a with
        | error m => exact ⟨m, by simp [evalPy, hF, hA]⟩
        | ok w =>
          obtain ⟨m, hm⟩ := ihb n h hl
          exact ⟨m, by simp [evalPy, hF, hA, hm]⟩

theorem lookup_append (l1 l2 : List (String × Value)) (n : String) :
    (l1 ++ l2).lookup n
      = match l1.lookup n with
        | some v => some v
        | none => l2.lookup n := by
  induction l1 with
  | nil => simp [List.lookup]
  | cons p l1 ih =>
    obtain ⟨k, v⟩ := p
    by_cases h : n = k
    · subst h
      simp [List.lookup]
    · simp [List.lookup, beq_false_of_ne h, ih]

theorem lookupName_eq_append (n : String) :
    lookupName n = (calcEnv ++ calcGlobals).lookup n := by
  rw [lookupName, lookup_append]

/-- The names resolvable in the restricted eval namespace of the
calculate tool: the eleven keys of the locals dict of src/app.py lines
62-74 and the builtins key of the globals dict of line 62. -/
def allowedNames : List String :=
  ["math", "np", "sin", "cos", "tan", "exp", "log", "log10", "sqrt", "pi", "e",
   "__builtins__"]

/-- C2 (amended): exactly the twelve names math, np, sin, cos, tan,
exp, log, log10, sqrt, pi, e and __builtins__ are resolvable during
evaluation (the locals table plus the globals binding of the empty
builtins dict); the keywords True, False and None and the compile-time
constant __debug__ evaluate as constants rather than names; and every
expression that references any name outside the twelve returns an
error payload rather than a result. -/
theorem C2_calculate_allowlist :
    (∀ n : String, (lookupName n).isSome ↔ n ∈ allowedNames) ∧
    calculate "__builtins__" = [("result", Value.emptyDict)] ∧
    calculate "True" = [("result", Value.boolv true)] ∧
    calculate "False" = [("result", Value.boolv false)] ∧
    calculate "None" = [("result", Value.nonev)] ∧
    calculate "__debug__" = [("result", Value.boolv true)] ∧
    (∀ s : String, ∀ e : PyExpr, parseExpr s = some e →
      ∀ n ∈ namesOf e, n ∉ allowedNames →
        ∃ m, calculate s = [("error", Value.str m)]) := by
  refine ⟨?_, by decide, by decide, by decide, by decide, by decide, ?_⟩
  · intro n
    rw [lookupName_eq_append, lookup_isSome_iff]
    simp [calcEnv, calcGlobals, allowedNames]
  · intro s e hp n hn hnot
    have hl : lookupName n = none := by
      rcases hv : lookupName n with _ | v
      · rfl
      · exfalso
        apply hnot
        have hsome : (lookupName n).isSome := by simp [hv]
        rw [lookupName_eq_append, lookup_isSome_iff] at hsome
        simpa [calcEnv, calcGlobals, allowedNames] using hsome
    obtain ⟨m, hm⟩ := evalPy_error_of_badName e n hn hl
    exact ⟨m, by simp [calculate, hp, hm, pyTry]⟩

theorem C2_calculate_allowlist_witness :
    ∃ m, calculate "undefined_name" = [("error", Value.str m)] :=
  C2_calculate_allowlist.2.2.2.2.2.2 "undefined_name" (.name "undefined_name")
    (by decide) "undefined_name" (by decide) (by decide)

/-- C2 counterexample: the module name math is not among the nine names
the claim lists as the complete allow-list, yet the calculate tool
resolves it (the eval namespace in src/app.py line 63 binds it) and
returns a success payload, not an error payload. -/
theorem C2_counterexample_math_resolves :
    calculate "math" = [("result", Value.module "math")] ∧
    "math" ∉ ["sin", "cos", "tan", "exp", "log", "log10", "sqrt", "pi", "e"] := by
  exact ⟨by decide, by decide⟩

theorem splitOnChar_length (sep : Char) :
    ∀ cs : List Char, (splitOnChar sep cs).length = cs.count sep + 1 := by
  intro cs
  induction cs with
  | nil => simp [splitOnChar]
  | cons c rest ih =>
    by_cases hc : c = sep
    · subst hc
      simp [splitOnChar, ih, List.count_cons_self]
    · rcases hr : splitOnChar sep rest with _ | ⟨g, gs⟩
      · rw [hr] at ih
        simp at ih
      · rw [hr] at ih
        simp only [splitOnChar, hr, if_neg hc]
        simp only [List.length_cons] at ih ⊢
        rw [List.count_cons_of_ne (Ne.symm hc)]
        exact ih

theorem pySplit_length (sep : Char) (s : String) :
    (pySplit sep s).length = s.data.count sep + 1 := by
  rw [pySplit, List.length_map, splitOnChar_length]

theorem polyEval_nil (x : ℚ) : polyEval [] x = 0 := rfl

theorem polyEval_cons (c : ℚ) (cs : List ℚ) (x : ℚ) :
    polyEval (c :: cs) x = c + x * polyEval cs x := rfl

theorem polyEval_polyAdd (p : List ℚ) : ∀ (q : List ℚ) (x : ℚ),
    polyEval (polyAdd p q) x = polyEval p x + polyEval q x := by
  induction p with
  | nil => intro q x; simp [polyAdd, polyEval_nil]
  | cons a p ih =>
    intro q x
    cases q with
    | nil => simp [polyAdd, polyEval_nil]
    | cons b q =>
      rw [polyAdd, polyEval_cons, polyEval_cons, polyEval_cons, ih]
      ring

theorem polyEval_polyNeg (p : List ℚ) (x : ℚ) :
    polyEval (polyNeg p) x = -polyEval p x := by
  induction p with
  | nil => simp [polyNeg, polyEval_nil]
  | cons a p ih =>
    simp only [polyNeg, List.map_cons] at ih ⊢
    rw [polyEval_cons, polyEval_cons, ih]
    ring

theorem polyEval_polySub (p q : List ℚ) (x : ℚ) :
    polyEval (polySub p q) x = polyEval p x - polyEval q x := by
  rw [polySub, polyEval_polyAdd, polyEval_polyNeg]
  ring

theorem polyEval_normPoly (p : List ℚ) (x : ℚ) :
    polyEval (normPoly p) x = polyEval p x := by
  induction p with
  | nil => rfl
  | cons c cs ih =>
    rw [normPoly]
    cases hn : normPoly cs with
    | nil =>
      have h0 : polyEval cs x = 0 := by rw [← ih, hn, polyEval_nil]
      by_cases hc : c = 0
      · simp [hc, polyEval_cons, polyEval_nil, h0]
      · simp [hc, polyEval_cons, polyEval_nil, h0]
    | cons d ds =>
      rw [hn] at ih
      rw [polyEval_cons] at ih
      rw [polyEval_cons, polyEval_cons, ih, polyEval_cons]

theorem normPoly_getLast_ne_zero :
    ∀ p : List ℚ, ∀ c : ℚ, (normPoly p).getLast? = some c → c ≠ 0 := by
  intro p
  induction p with
  | nil => intro c hc; simp [normPoly] at hc
  | cons a as ih =>
    intro c hc
    rw [normPoly] at hc
    cases hn : normPoly as with
    | nil =>
      rw [hn] at hc
      by_cases ha : a = 0
      · simp [ha] at hc
      · simp only [if_neg ha, List.getLast?_singleton, Option.some.injEq] at hc
        subst hc
        exact ha
    | cons d ds =>
      rw [hn] at hc
      rw [List.getLast?_cons_cons] at hc
      exact ih c (by rw [hn]; exact hc)

theorem ratSqrt_sound (q s : ℚ) (h : ratSqrt q = some s) : s * s = q ∧ 0 ≤ s := by
  unfold ratSqrt at h
  split at h
  case isTrue hcond =>
    obtain ⟨hq, hn, hd⟩ := hcond
    injection h with hs
    subst hs
    constructor
    · have e1 : ((Nat.sqrt q.num.toNat : ℚ) / (Nat.sqrt q.den : ℚ))
          * ((Nat.sqrt q.num.toNat : ℚ) / (Nat.sqrt q.den : ℚ))
          = ((Nat.sqrt q.num.toNat * Nat.sqrt q.num.toNat : ℕ) : ℚ)
            / ((Nat.sqrt q.den * Nat.sqrt q.den : ℕ) : ℚ) := by
        push_cast
        ring
      rw [e1, hn, hd]
      have hnum : ((q.num.toNat : ℕ) : ℚ) = ((q.num : ℤ) : ℚ) := by
        have : (q.num.toNat : ℤ) = q.num := Int.toNat_of_nonneg (Rat.num_nonneg.mpr hq)
        exact_mod_cast congrArg (fun z : ℤ => (z : ℚ)) this
      rw [hnum]
      exact Rat.num_div_den q
    · positivity
  case isFalse => cases h

/-- Any root in the standard quadratic formula form is a root of the
quadratic, given the discriminant equation. -/
theorem quad_root_eval (a b c s z : ℚ) (ha : a ≠ 0)
    (hs : s * s = b ^ 2 - 4 * a * c)
    (hz : z = (-b - s) / (2 * a) ∨ z = (-b + s) / (2 * a)) :
    c + z * (b + z * a) = 0 := by
  rcases hz with rfl | rfl
  · field_simp
    linear_combination a * hs
  · field_simp
    linear_combination a * hs

/-- Soundness of the polynomial-solver model: every solution it returns
is a root. -/
theorem polySolve_sound (p sols : List ℚ) (h : polySolve p = .ok sols) :
    ∀ z ∈ sols, polyEval p z = 0 := by
  intro z hz
  rw [← polyEval_normPoly]
  unfold polySolve at h
  rcases hn : normPoly p with _ | ⟨c, _ | ⟨b, _ | ⟨a, rest⟩⟩⟩ <;> rw [hn] at h
  · injection h with hs
    subst hs
    cases hz
  · injection h with hs
    subst hs
    cases hz
  · injection h with hs
    subst hs
    have hb : b ≠ 0 := by
      apply normPoly_getLast_ne_zero p
      rw [hn]
      rfl
    rcases List.mem_singleton.mp hz with rfl
    rw [polyEval_cons, polyEval_cons, polyEval_nil]
    field_simp
  · cases rest with
    | cons _ _ =>
      simp only [] at h
      cases h
    | nil =>
      simp only [] at h
      have ha : a ≠ 0 := by
        apply normPoly_getLast_ne_zero p
        rw [hn]
        rfl
      rw [polyEval_cons, polyEval_cons, polyEval_cons, polyEval_nil]
      have goal_form : c + z * (b + z * (a + z * 0)) = c + z * (b + z * a) := by ring
      rw [goal_form]
      cases hsq : ratSqrt (b ^ 2 - 4 * a * c) with
      | none =>
        rw [hsq] at h
        cases h
      | some s =>
        rw [hsq] at h
        simp only [] at h
        obtain ⟨hss, _⟩ := ratSqrt_sound _ _ hsq
        by_cases hs0 : s = 0
        · rw [if_pos hs0] at h
          injection h with hsols
          subst hsols
          rcases List.mem_singleton.mp hz with rfl
          exact quad_root_eval a b c s _ ha hss (.inl (by rw [hs0, sub_zero]))
        · rw [if_neg hs0] at h
          split at h
          · injection h with hsols
            subst hsols
            rcases List.mem_cons.mp hz with rfl | hz2
            · exact quad_root_eval a b c s _ ha hss (.inl rfl)
            · rcases List.mem_singleton.mp hz2 with rfl
              exact quad_root_eval a b c s _ ha hss (.inr rfl)
          · injection h with hsols
            subst hsols
            rcases List.mem_cons.mp hz with rfl | hz2
            · exact quad_root_eval a b c s _ ha hss (.inr rfl)
            · rcases List.mem_singleton.mp hz2 with rfl
              exact quad_root_eval a b c s _ ha hss (.inl rfl)

/-- The model-restriction messages that toPoly can raise. -/
def modelMsgs : List String :=
  ["model restriction: unsupported symbol",
   "model restriction: unsupported constant",
   "model restriction: division by zero",
   "model restriction: nonpolynomial division",
   "model restriction: unsupported operator",
   "model restriction: unsupported exponent",
   "model restriction: unsupported function"]

theorem toPoly_error_mem (v : String) :
    ∀ e : PyExpr, ∀ m : String, toPoly v e = .error m → m ∈ modelMsgs := by
  intro e
  induction e with
  | num n =>
    intro m hm
    simp [toPoly] at hm
  | pyTrue =>
    intro m hm
    simp only [toPoly, Except.error.injEq] at hm
    subst hm
    decide
  | pyFalse =>
    intro m hm
    simp only [toPoly, Except.error.injEq] at hm
    subst hm
    decide
  | pyNone =>
    intro m hm
    simp only [toPoly, Except.error.injEq] at hm
    subst hm
    decide
  | name s =>
    intro m hm
    by_cases h : s = v
    · simp [toPoly, h] at hm
    · simp only [toPoly, if_neg h, Except.error.injEq] at hm
      subst hm
      decide
  | neg a ih =>
    intro m hm
    simp only [toPoly] at hm
    cases hA : toPoly v a with
    | error mA =>
      rw [hA] at hm
      simp only [error_bind, Except.error.injEq] at hm
      subst hm
      exact ih mA hA
    | ok pa =>
      rw [hA] at hm
      simp at hm
  | add a b iha ihb =>
    intro m hm
    simp only [toPoly] at hm
    cases hA : toPoly v a with
    | error mA =>
      rw [hA] at hm
      simp only [error_bind, Except.error.injEq] at hm
      subst hm
      exact iha mA hA
    | ok pa =>
      rw [hA] at hm
      simp only [ok_bind] at hm
      cases hB : toPoly v b with
      | error mB =>
        rw [hB] at hm
        simp only [error_bind, Except.error.injEq] at hm
        subst hm
        exact ihb mB hB
      | ok pb =>
        rw [hB] at hm
        simp at hm
  | sub a b iha ihb =>
    intro m hm
    simp only [toPoly] at hm
    cases hA : toPoly v a with
    | error mA =>
      rw [hA] at hm
      simp only [error_bind, Except.error.injEq] at hm
      subst hm
      exact iha mA hA
    | ok pa =>
      rw [hA] at hm
      simp only [ok_bind] at hm
      cases hB : toPoly v b with
      | error mB =>
        rw [hB] at hm
        simp only [error_bind, Except.error.injEq] at hm
        subst hm
        exact ihb mB hB
      | ok pb =>
        rw [hB] at hm
        simp at hm
  | mul a b iha ihb =>
    intro m hm
    simp only [toPoly] at hm
    cases hA : toPoly v a with
    | error mA =>
      rw [hA] at hm
      simp only [error_bind, Except.error.injEq] at hm
      subst hm
      exact iha mA hA
    | ok pa =>
      rw [hA] at hm
      simp only [ok_bind] at hm
      cases hB : toPoly v b with
      | error mB =>
        rw [hB] at hm
        simp only [error_bind, Except.error.injEq] at hm
        subst hm
        exact ihb mB hB
      | ok pb =>
        rw [hB] at hm
        simp at hm
  | div a b iha ihb =>
    intro m hm
    simp only [toPoly] at hm
    cases hA : toPoly v a with
    | error mA =>
      rw [hA] at hm
      simp only [error_bind, Except.error.injEq] at hm
      subst hm
      exact iha mA hA
    | ok pa =>
      rw [hA] at hm
      simp only [ok_bind] at hm
      cases hB : toPoly v b with
      | error mB =>
        rw [hB] at hm
        simp only [error_bind, Except.error.injEq] at hm
        subst hm
        exact ihb mB hB
      | ok pb =>
        rw [hB] at hm
        simp only [ok_bind] at hm
        cases hc : polyConst? pb with
        | none =>
          rw [hc] at hm
          simp only [Except.error.injEq] at hm
          subst hm
          decide
        | some cv =>
          rw [hc] at hm
          simp only [] at hm
          by_cases h0 : cv = 0
          · rw [if_pos h0] at hm
            simp only [Except.error.injEq] at hm
            subst hm
            decide
          · simp [h0] at hm
  | mod a b iha ihb =>
    intro m hm
    simp only [toPoly, Except.error.injEq] at hm
    subst hm
    decide
  | pow a b iha ihb =>
    intro m hm
    simp only [toPoly] at hm
    cases hA : toPoly v a with
    | error mA =>
      rw [hA] at hm
      simp only [error_bind, Except.error.injEq] at hm
      subst hm
      exact iha mA hA
    | ok pa =>
      rw [hA] at hm
      simp only [ok_bind] at hm
      cases hB : toPoly v b with
      | error mB =>
        rw [hB] at hm
        simp only [error_bind, Except.error.injEq] at hm
        subst hm
        exact ihb mB hB
      | ok pb =>
        rw [hB] at hm
        simp only [ok_bind] at hm
        cases hc : polyConst? pb with
        | none =>
          rw [hc] at hm
          simp only [Except.error.injEq] at hm
          subst hm
          decide
        | some cv =>
          rw [hc] at hm
          simp only [] at hm
          by_cases hd : cv.den = 1 ∧ 0 ≤ cv.num
          · simp [hd] at hm
          · simp only [if_neg hd, Except.error.injEq] at hm
            subst hm
            decide
  | call1 f a ihf iha =>
    intro m hm
    simp only [toPoly, Except.error.injEq] at hm
    subst hm
    decide
  | call2 f a b ihf iha ihb =>
    intro m hm
    simp only [toPoly, Except.error.injEq] at hm
    subst hm
    decide

theorem polySolve_error_mem (p : List ℚ) (m : String) (h : polySolve p = .error m) :
    m ∈ ["model restriction: irrational or complex roots",
         "model restriction: degree above two"] := by
  unfold polySolve at h
  rcases hn : normPoly p with _ | ⟨c, _ | ⟨b, _ | ⟨a, rest⟩⟩⟩ <;> rw [hn] at h
  · cases h
  · cases h
  · cases h
  · cases rest with
    | cons _ _ =>
      simp only [Except.error.injEq] at h
      subst h
      decide
    | nil =>
      simp only [] at h
      cases hsq : ratSqrt (b ^ 2 - 4 * a * c) with
      | none =>
        rw [hsq] at h
        simp only [Except.error.injEq] at h
        subst h
        decide
      | some s =>
        rw [hsq] at h
        simp only [] at h
        split_ifs at h

theorem sympify_error_cases (v s : String) (m : String)
    (h : sympifyPoly v s = .error m) : m = sympifyErrMsg ∨ m ∈ modelMsgs := by
  unfold sympifyPoly at h
  cases hp : parseExpr s <;> rw [hp] at h
  · left
    simp only [Except.error.injEq] at h
    exact h.symm
  · right
    exact toPoly_error_mem v _ m h

/-- Computation of solve_equation on an input that splits in two and
sympifies and solves successfully. -/
theorem solve_equation_eval (eq l r : String) (pl pr sols : List ℚ)
    (hsplit : pySplit '=' eq = [l, r])
    (h1 : sympifyPoly "x" (pyStrip l) = .ok pl)
    (h2 : sympifyPoly "x" (pyStrip r) = .ok pr)
    (h3 : polySolve (polySub pl pr) = .ok sols) :
    solve_equation eq = [("solutions", Value.str (printSolutions sols))] := by
  simp [solve_equation, hsplit, h1, h2, h3, pyTry]

/-- C3: solve_equation returns the missing-equality-sign error payload
if and only if splitting the input on the equality sign does not yield
exactly two parts, equivalently the input does not contain exactly one
equality sign; on every input with exactly one equality sign whose two
sides sympify and solve, it returns the solution set of left minus
right equals zero serialized as a string, every returned solution being
a root; solving the quadratic example yields the string holding 2 and
3. -/
theorem C3_solve_equation :
    (∀ eq : String,
      solve_equation eq = [("error", Value.str missingEqMsg)]
        ↔ (pySplit '=' eq).length ≠ 2) ∧
    (∀ eq : String, (pySplit '=' eq).length = 2 ↔ eq.data.count '=' = 1) ∧
    (∀ eq l r : String, ∀ pl pr sols : List ℚ,
      pySplit '=' eq = [l, r] →
      sympifyPoly "x" (pyStrip l) = .ok pl →
      sympifyPoly "x" (pyStrip r) = .ok pr →
      polySolve (polySub pl pr) = .ok sols →
      solve_equation eq = [("solutions", Value.str (printSolutions sols))] ∧
        ∀ z ∈ sols, polyEval pl z = polyEval pr z) ∧
    solve_equation "x**2 - 5*x + 6 = 0" = [("solutions", Value.str "[2, 3]")] := by
  refine ⟨?_, ?_, ?_, ?_⟩
  · intro eq
    constructor
    · intro heq
      by_contra hlen
      obtain ⟨l, r, hlr⟩ := List.length_eq_two.mp hlen
      cases h1 : sympifyPoly "x" (pyStrip l) with
      | error m =>
        have hv : solve_equation eq = [("error", Value.str m)] := by
          simp [solve_equation, hlr, h1, pyTry]
        rw [hv] at heq
        simp only [List.cons.injEq, Prod.mk.injEq, Value.str.injEq, and_true, true_and] at heq
        rcases sympify_error_cases _ _ _ h1 with hc | hc
        · rw [heq] at hc
          exact absurd hc (by decide)
        · rw [heq] at hc
          exact absurd hc (by decide)
      | ok pl =>
        cases h2 : sympifyPoly "x" (pyStrip r) with
        | error m =>
          have hv : solve_equation eq = [("error", Value.str m)] := by
            simp [solve_equation, hlr, h1, h2, pyTry]
          rw [hv] at heq
          simp only [List.cons.injEq, Prod.mk.injEq, Value.str.injEq, and_true,
            true_and] at heq
          rcases sympify_error_cases _ _ _ h2 with hc | hc
          · rw [heq] at hc
            exact absurd hc (by decide)
          · rw [heq] at hc
            exact absurd hc (by decide)
        | ok pr =>
          cases h3 : polySolve (polySub pl pr) with
          | error m =>
            have hv : solve_equation eq = [("error", Value.str m)] := by
              simp [solve_equation, hlr, h1, h2, h3, pyTry]
            rw [hv] at heq
            simp only [List.cons.injEq, Prod.mk.injEq, Value.str.injEq, and_true,
              true_and] at heq
            have hc := polySolve_error_mem _ _ h3
            rw [heq] at hc
            exact absurd hc (by decide)
          | ok sols =>
            have hv := solve_equation_eval eq l r pl pr sols hlr h1 h2 h3
            rw [hv] at heq
            simp at heq
    · intro hne
      simp [solve_equation, hne, pyTry]
  · intro eq
    rw [pySplit_length]
    omega
  · intro eq l r pl pr sols hsplit h1 h2 h3
    refine ⟨solve_equation_eval eq l r pl pr sols hsplit h1 h2 h3, ?_⟩
    intro z hz
    have := polySolve_sound _ _ h3 z hz
    rw [polyEval_polySub] at this
    exact sub_eq_zero.mp this
  · have hsplit : pySplit '=' "x**2 - 5*x + 6 = 0" = ["x**2 - 5*x + 6 ", " 0"] := by
      decide
    have hstrip1 : pyStrip "x**2 - 5*x + 6 " = "x**2 - 5*x + 6" := by decide
    have hstrip2 : pyStrip " 0" = "0" := by decide
    have hp1 : parseExpr "x**2 - 5*x + 6"
        = some (.add (.sub (.pow (.name "x") (.num 2))
            (.mul (.num 5) (.name "x"))) (.num 6)) := by
      decide
    have hp2 : parseExpr "0" = some (.num 0) := by decide
    have h1 : sympifyPoly "x" "x**2 - 5*x + 6" = .ok [6, -5, 1] := by
      rw [sympifyPoly, hp1]
      norm_num [toPoly, polyPow, polyMul, polyAdd, polySub, polyNeg, polyScale,
        polyConst?, normPoly]
    have h2 : sympifyPoly "x" "0" = .ok [0] := by
      rw [sympifyPoly, hp2]
      norm_num [toPoly]
    have hsub : polySub [6, -5, 1] [(0 : ℚ)] = [6, -5, 1] := by
      norm_num [polySub, polyAdd, polyNeg]
    have hnp : normPoly [(6 : ℚ), -5, 1] = [6, -5, 1] := by
      norm_num [normPoly]
    have hrs : ratSqrt 1 = some 1 := by
      unfold ratSqrt
      norm_num [Nat.sqrt_one]
    have hsolve : polySolve [(6 : ℚ), -5, 1] = .ok [2, 3] := by
      unfold polySolve
      rw [hnp]
      simp only []
      rw [show ((-5 : ℚ)) ^ 2 - 4 * 1 * 6 = 1 by norm_num]
      rw [hrs]
      norm_num
    have hps : printSolutions [(2 : ℚ), 3] = "[2, 3]" := by decide
    rw [← hps]
    exact solve_equation_eval _ _ _ _ _ _ hsplit
      (by rw [hstrip1]; exact h1) (by rw [hstrip2]; exact h2)
      (by rw [hsub]; exact hsolve)

theorem C3_solve_equation_witness :
    solve_equation "no equals sign" = [("error", Value.str missingEqMsg)] :=
  (C3_solve_equation.1 "no equals sign").mpr (by decide)

theorem foldl_min_le_init (xs : List ℚ) : ∀ a : ℚ, xs.foldl min a ≤ a := by
  induction xs with
  | nil => intro a; simp
  | cons x xs ih =>
    intro a
    exact le_trans (ih (min a x)) (min_le_left a x)

theorem foldl_min_le_mem (xs : List ℚ) : ∀ a y : ℚ, y ∈ xs → xs.foldl min a ≤ y := by
  induction xs with
  | nil => intro a y h; cases h
  | cons x xs ih =>
    intro a y h
    rcases List.mem_cons.mp h with rfl | h
    · exact le_trans (foldl_min_le_init xs (min a y)) (min_le_right a y)
    · exact ih (min a x) y h

theorem foldl_min_mem (xs : List ℚ) : ∀ a : ℚ, xs.foldl min a = a ∨ xs.foldl min a ∈ xs := by
  induction xs with
  | nil => intro a; exact .inl rfl
  | cons x xs ih =>
    intro a
    rcases ih (min a x) with h | h
    · rcases min_cases a x with ⟨hm, _⟩ | ⟨hm, _⟩
      · exact .inl (by rw [List.foldl_cons, h, hm])
      · refine .inr ?_
        rw [List.foldl_cons, h, hm]
        exact List.mem_cons_self x xs
    · exact .inr (List.mem_cons_of_mem x h)

theorem listMin_mem (l : List ℚ) (h : l ≠ []) : listMin l ∈ l := by
  cases l with
  | nil => exact absurd rfl h
  | cons x xs =>
    rcases foldl_min_mem xs x with h1 | h1
    · rw [listMin, h1]
      exact List.mem_cons_self x xs
    · rw [listMin]
      exact List.mem_cons_of_mem x h1

theorem listMin_le (l : List ℚ) (y : ℚ) (hy : y ∈ l) : listMin l ≤ y := by
  cases l with
  | nil => cases hy
  | cons x xs =>
    rcases List.mem_cons.mp hy with rfl | h
    · rw [listMin]
      exact foldl_min_le_init xs y
    · rw [listMin]
      exact foldl_min_le_mem xs x y h

theorem le_foldr_max (ns : List ℕ) (n : ℕ) (h : n ∈ ns) : n ≤ ns.foldr max 0 := by
  induction ns with
  | nil => cases h
  | cons m ms ih =>
    rcases List.mem_cons.mp h with rfl | h
    · exact le_max_left n (ms.foldr max 0)
    · exact le_trans (ih h) (le_max_right m (ms.foldr max 0))

theorem foldr_max_mem (ns : List ℕ) (h : ns ≠ []) : ns.foldr max 0 ∈ ns := by
  induction ns with
  | nil => exact absurd rfl h
  | cons m ms ih =>
    by_cases hms : ms = []
    · subst hms
      simp
    · rcases max_cases m (ms.foldr max 0) with ⟨hm, _⟩ | ⟨hm, _⟩
      · rw [List.foldr_cons, hm]
        exact List.mem_cons_self m ms
      · rw [List.foldr_cons, hm]
        exact List.mem_cons_of_mem m (ih hms)

theorem modeCandidates_ne_nil (l : List ℚ) (h : l ≠ []) : modeCandidates l ≠ [] := by
  have hmm : maxCount l ∈ l.map (countQ l) := by
    apply foldr_max_mem
    simp [h]
  obtain ⟨x, hx, hcx⟩ := List.mem_map.mp hmm
  intro hc
  have hmem : x ∈ modeCandidates l := by
    rw [modeCandidates, List.mem_filter]
    exact ⟨hx, by simp [hcx]⟩
  rw [hc] at hmem
  cases hmem

theorem modeVal_spec (l : List ℚ) (h : l ≠ []) :
    modeVal l ∈ l ∧
    (∀ y ∈ l, countQ l y ≤ countQ l (modeVal l)) ∧
    (∀ y ∈ l, countQ l y = countQ l (modeVal l) → modeVal l ≤ y) := by
  have hne := modeCandidates_ne_nil l h
  have hmem : modeVal l ∈ modeCandidates l := listMin_mem _ hne
  rw [modeCandidates, List.mem_filter] at hmem
  obtain ⟨hml, hmc⟩ := hmem
  have hmc2 : countQ l (modeVal l) = maxCount l := by simpa using hmc
  refine ⟨hml, ?_, ?_⟩
  · intro y hy
    rw [hmc2]
    exact le_foldr_max _ _ (List.mem_map.mpr ⟨y, hy, rfl⟩)
  · intro y hy hcy
    apply listMin_le
    rw [modeCandidates, List.mem_filter]
    refine ⟨hy, ?_⟩
    simp [hcy, hmc2]

/-- C4: mode returns the empty-input error payload exactly on the empty
list; on every non-empty list it returns a value of maximal frequency,
the smallest among tied values; on the tied example the result is 1. -/
theorem C4_mode_empty_error_and_smallest_tie :
    (∀ l : List ℚ,
      mode l = [("error", Value.str "Cannot compute mode of empty array")] ↔ l = []) ∧
    (∀ l : List ℚ, l ≠ [] →
      mode l = [("result", Value.num (modeVal l))] ∧
      modeVal l ∈ l ∧
      (∀ y ∈ l, countQ l y ≤ countQ l (modeVal l)) ∧
      (∀ y ∈ l, countQ l y = countQ l (modeVal l) → modeVal l ≤ y)) ∧
    mode [1, 1, 2, 2] = [("result", Value.num 1)] := by
  refine ⟨?_, ?_, ?_⟩
  · intro l
    constructor
    · intro hmode
      by_contra hl
      have hv : mode l = [("result", Value.num (modeVal l))] := by
        simp [mode, hl, pyTry]
      rw [hv] at hmode
      simp at hmode
    · intro hl
      subst hl
      rfl
  · intro l hl
    have hv : mode l = [("result", Value.num (modeVal l))] := by
      simp [mode, hl, pyTry]
    obtain ⟨h1, h2, h3⟩ := modeVal_spec l hl
    exact ⟨hv, h1, h2, h3⟩
  · decide

theorem C4_mode_witness :
    mode [1, 1, 2, 2] = [("result", Value.num (modeVal [1, 1, 2, 2]))] ∧
    modeVal [1, 1, 2, 2] ∈ [1, 1, 2, 2] := by
  have h := C4_mode_empty_error_and_smallest_tie.2.1 [1, 1, 2, 2] (by decide)
  exact ⟨h.1, h.2.1⟩

/-- C5: divide returns an error payload exactly when the divisor is
zero, detected proactively rather than by a raised exception, and the
quotient payload otherwise.  The divide tool is modelled from the spec:
it is registered only in the arithmetic-tool version of the server. -/
theorem C5_divide_zero_divisor (a b : ℚ) :
    (b = 0 → divide a b = [("error", Value.str "Division by zero is not allowed")]) ∧
    (b ≠ 0 → divide a b = [("result", Value.num (a / b))]) := by
  constructor
  · intro h
    simp [divide, h, pyTry]
  · intro h
    simp [divide, h, pyTry]

theorem C5_divide_zero_divisor_witness :
    divide 1 0 = [("error", Value.str "Division by zero is not allowed")] ∧
    divide 6 3 = [("result", Value.num (6 / 3))] :=
  ⟨(C5_divide_zero_divisor 1 0).1 rfl, (C5_divide_zero_divisor 6 3).2 (by norm_num)⟩

/-- The population variance as the spec words it: the sum of squared
deviations from the mean divided by n, not by n minus 1. -/
def popVarSpec (l : List ℚ) : ℚ :=
  (l.map (fun x => (x - l.sum / l.length) ^ 2)).sum / l.length

theorem nvar_eq_popVarSpec (data : List ℚ) (h : data ≠ []) :
    nvar data = .fin (popVarSpec data) := by
  have h0 : data.length ≠ 0 := fun hh => h (List.length_eq_zero.mp hh)
  simp [nvar, nmean, h0, popVarSpec, List.length_map]

/-- C6: on every non-empty list, variance returns the population
variance (the sum of squared deviations from the mean divided by n, not
by n minus 1) and standard_deviation returns the square root of that
population variance; variance of the example list is 5/4. -/
theorem C6_population_variance (data : List ℚ) (h : data ≠ []) :
    variance data = [("result", Value.num (popVarSpec data))] ∧
    standard_deviation data
      = [("result", Value.rterm (.sqrt (.rat (popVarSpec data))))] ∧
    (∀ ppf : ℚ → ℤ → ℝ,
      RTerm.evalR ppf (.sqrt (.rat (popVarSpec data)))
        = Real.sqrt (popVarSpec data)) ∧
    variance [1, 2, 3, 4] = [("result", Value.num (5 / 4))] := by
  have hvar := nvar_eq_popVarSpec data h
  refine ⟨?_, ?_, ?_, ?_⟩
  · simp [variance, pyTry, hvar, RVal.toValue]
  · simp [standard_deviation, pyTry, hvar]
  · intro ppf
    simp [RTerm.evalR]
  · have h4 := nvar_eq_popVarSpec [1, 2, 3, 4] (by decide)
    simp only [variance, pyTry, h4, RVal.toValue]
    norm_num [popVarSpec]

theorem C6_population_variance_witness :
    variance [1, 2, 3, 4] = [("result", Value.num (popVarSpec [1, 2, 3, 4]))] ∧
    standard_deviation [1, 2, 3, 4]
      = [("result", Value.rterm (.sqrt (.rat (popVarSpec [1, 2, 3, 4]))))] := by
  have h := C6_population_variance [1, 2, 3, 4] (by decide)
  exact ⟨h.1, h.2.1⟩

theorem range_map_getD (l : List ℚ) :
    (List.range l.length).map (fun j => l.getD j 0) = l := by
  apply List.ext_getElem
  · simp
  · intro i h1 h2
    simp only [List.getElem_map, List.getElem_range]
    exact List.getD_eq_getElem l 0 h2

theorem isRect_of_rows (m : List (List ℚ)) (k : ℕ) (hk : ∀ r ∈ m, r.length = k) :
    isRect m = true := by
  cases m with
  | nil => rfl
  | cons r rs =>
    simp only [isRect, List.all_eq_true, decide_eq_true_eq]
    intro s hs
    rw [hk s (List.mem_cons_of_mem r hs), hk r (List.mem_cons_self r rs)]

theorem isRect_transposeMat (m : List (List ℚ)) : isRect (transposeMat m) = true := by
  have hall : ∀ row ∈ transposeMat m, row.length = m.length := by
    intro row hrow
    rw [transposeMat] at hrow
    obtain ⟨j, _, rfl⟩ := List.mem_map.mp hrow
    simp
  exact isRect_of_rows _ m.length hall

theorem transposeMat_involution (m : List (List ℚ)) (k : ℕ) (hm : m ≠ [])
    (hk : ∀ r ∈ m, r.length = k) (hk0 : 0 < k) :
    transposeMat (transposeMat m) = m := by
  have hhead : (m.headD []).length = k := by
    cases m with
    | nil => exact absurd rfl hm
    | cons r rs => exact hk r (List.mem_cons_self r rs)
  have hT : transposeMat m
      = (List.range k).map (fun j => m.map (fun row => row.getD j 0)) := by
    rw [transposeMat, hhead]
  have hTheadlen : ((transposeMat m).headD []).length = m.length := by
    rw [hT]
    cases k with
    | zero => omega
    | succ k2 =>
      rw [List.range_succ_eq_map]
      simp
  have hTT : transposeMat (transposeMat m)
      = (List.range m.length).map
          (fun i => (transposeMat m).map (fun row => row.getD i 0)) := by
    rw [transposeMat, hTheadlen]
  rw [hTT]
  apply List.ext_getElem
  · simp
  · intro i h1 h2
    simp only [List.getElem_map, List.getElem_range]
    rw [hT, List.map_map]
    have hcongr : ((fun row : List ℚ => row.getD i 0)
          ∘ (fun j => m.map (fun row => row.getD j 0)))
        = fun j => (m[i]).getD j 0 := by
      funext j
      simp only [Function.comp]
      rw [List.getD_eq_getElem _ 0 (by simpa using h2), List.getElem_map]
    rw [hcongr]
    have hmk : (m[i]).length = k := hk _ (List.getElem_mem h2)
    rw [← hmk, range_map_getD]

/-- C7: for every rectangular matrix with non-empty equal-length rows,
the matrix_transpose tool succeeds on the matrix and on its transpose,
applying it twice gives back the original matrix, and the transpose of
the transpose equals the original at the model level. -/
theorem C7_transpose_involution (m : List (List ℚ)) (k : ℕ) (hm : m ≠ [])
    (hk : ∀ r ∈ m, r.length = k) (hk0 : 0 < k) :
    matrix_transpose m = [("result", Value.matv (transposeMat m))] ∧
    matrix_transpose (transposeMat m) = [("result", Value.matv m)] ∧
    transposeMat (transposeMat m) = m := by
  have hinv := transposeMat_involution m k hm hk hk0
  have hr1 := isRect_of_rows m k hk
  have hr2 := isRect_transposeMat m
  refine ⟨?_, ?_, hinv⟩
  · simp [matrix_transpose, hr1, pyTry]
  · simp [matrix_transpose, hr2, pyTry, hinv]

theorem C7_transpose_involution_witness :
    matrix_transpose [[1, 2], [3, 4]]
      = [("result", Value.matv (transposeMat [[1, 2], [3, 4]]))] ∧
    transposeMat (transposeMat [[1, 2], [3, 4]]) = [[1, 2], [3, 4]] := by
  have h := C7_transpose_involution [[1, 2], [3, 4]] 2 (by decide) (by decide) (by decide)
  exact ⟨h.1, h.2.2⟩

theorem derivFrom_integFrom (p : List ℚ) :
    ∀ k : ℚ, 1 ≤ k → derivFrom k (integFrom k p) = p := by
  induction p with
  | nil => intro k _; rfl
  | cons c cs ih =>
    intro k hk
    have hkne : k ≠ 0 := ne_of_gt (lt_of_lt_of_le one_pos hk)
    rw [integFrom, derivFrom]
    have hcd : k * (c / k) = c := by field_simp
    rw [hcd, ih (k + 1) (by linarith)]

/-- Differentiating the antiderivative recovers every coefficient list
exactly: the integration constant the integrate tool omits is zero. -/
theorem polyDeriv_polyInteg (p : List ℚ) : polyDeriv (polyInteg p) = p := by
  rw [polyInteg, polyDeriv]
  simp only [List.drop_succ_cons, List.drop_zero]
  exact derivFrom_integFrom p 1 le_rfl

/-- C8: differentiate of x**2 is 2*x, integrate of x**2 is x**3/3,
differentiating that integral recovers x**2, and at the coefficient
level differentiating after integrating recovers every polynomial
exactly. -/
theorem C8_differentiate_integrate :
    differentiate "x**2" "x" = [("result", Value.str "2*x")] ∧
    integrate "x**2" "x" = [("result", Value.str "x**3/3")] ∧
    differentiate "x**3/3" "x" = [("result", Value.str "x**2")] ∧
    ∀ p : List ℚ, polyDeriv (polyInteg p) = p := by
  have h13 : (1 / 3 : ℚ) = ⟨1, 3, by decide, by decide⟩ := by
    apply Rat.ext <;> norm_num
  have hsym2 : sympifyPoly "x" "x**2" = .ok [0, 0, 1] := by
    rw [sympifyPoly, show parseExpr "x**2" = some (.pow (.name "x") (.num 2)) from by decide]
    norm_num [toPoly, polyPow, polyMul, polyAdd, polyScale, polyConst?, normPoly]
  have hsym3 : sympifyPoly "x" "x**3/3" = .ok [0, 0, 0, 1 / 3] := by
    rw [sympifyPoly,
      show parseExpr "x**3/3" = some (.div (.pow (.name "x") (.num 3)) (.num 3)) from by decide]
    norm_num [toPoly, polyPow, polyMul, polyAdd, polyScale, polyConst?, normPoly]
  refine ⟨?_, ?_, ?_, polyDeriv_polyInteg⟩
  · have hv : differentiate "x**2" "x"
        = [("result", Value.str (printPoly "x" (normPoly (polyDeriv [0, 0, 1]))))] := by
      simp [differentiate, hsym2, pyTry]
    rw [hv, show polyDeriv [(0 : ℚ), 0, 1] = [0, 2] from by norm_num [polyDeriv, derivFrom],
      show normPoly [(0 : ℚ), 2] = [0, 2] from by norm_num [normPoly],
      show printPoly "x" [(0 : ℚ), 2] = "2*x" from by decide]
  · have hv : integrate "x**2" "x"
        = [("result", Value.str (printPoly "x" (normPoly (polyInteg [0, 0, 1]))))] := by
      simp [integrate, hsym2, pyTry]
    rw [hv, show polyInteg [(0 : ℚ), 0, 1] = [0, 0, 0, 1 / 3] from by
        norm_num [polyInteg, integFrom],
      show normPoly [(0 : ℚ), 0, 0, 1 / 3] = [0, 0, 0, 1 / 3] from by norm_num [normPoly],
      h13, show printPoly "x" [(0 : ℚ), 0, 0, ⟨1, 3, by decide, by decide⟩] = "x**3/3" from by
        decide]
  · have hv : differentiate "x**3/3" "x"
        = [("result", Value.str (printPoly "x" (normPoly (polyDeriv [0, 0, 0, 1 / 3]))))] := by
      simp [differentiate, hsym3, pyTry]
    rw [hv, show polyDeriv [(0 : ℚ), 0, 0, 1 / 3] = [0, 0, 1] from by
        norm_num [polyDeriv, derivFrom],
      show normPoly [(0 : ℚ), 0, 1] = [0, 0, 1] from by norm_num [normPoly],
      show printPoly "x" [(0 : ℚ), 0, 1] = "x**2" from by decide]

/-- C9: for every sample of at least two points and every confidence
level strictly between zero and one, confidence_interval returns the
pair (mean - m, mean + m) for the single margin m equal to the sample
standard error times the t-distribution critical value at
(1 + confidence) / 2 with n - 1 degrees of freedom; whenever that
critical value is non-negative (as every t-quantile at probability at
least one half is), the margin is non-negative, and the interval is
symmetric about the sample mean: lower plus upper is twice the mean. -/
theorem C9_confidence_interval_symmetric (ppf : ℚ → ℤ → ℝ) (data : List ℚ)
    (confidence : ℚ) (h2 : 2 ≤ data.length) (hc0 : 0 < confidence)
    (hc1 : confidence < 1)
    (hppf : 0 ≤ ppf ((1 + confidence) / 2) ((data.length : ℤ) - 1)) :
    ∃ lo hi : RTerm, ∃ m : ℝ,
      confidence_interval data confidence
        = [("confidence_interval", Value.pairv (.rterm lo) (.rterm hi))] ∧
      0 ≤ m ∧
      m = RTerm.evalR ppf (semT data)
            * ppf ((1 + confidence) / 2) ((data.length : ℤ) - 1) ∧
      RTerm.evalR ppf lo = ((data.sum : ℚ) : ℝ) / (data.length : ℝ) - m ∧
      RTerm.evalR ppf hi = ((data.sum : ℚ) : ℝ) / (data.length : ℝ) + m ∧
      RTerm.evalR ppf lo + RTerm.evalR ppf hi
        = 2 * (((data.sum : ℚ) : ℝ) / (data.length : ℝ)) := by
  have hn0 : data.length ≠ 0 := by omega
  have hn1 : ¬ data.length ≤ 1 := by omega
  refine ⟨RTerm.sub (meanT data)
      (RTerm.mul (semT data) (.tppf ((1 + confidence) / 2) ((data.length : ℤ) - 1))),
    RTerm.add (meanT data)
      (RTerm.mul (semT data) (.tppf ((1 + confidence) / 2) ((data.length : ℤ) - 1))),
    RTerm.evalR ppf (semT data) * ppf ((1 + confidence) / 2) ((data.length : ℤ) - 1),
    ?_, ?_, rfl, ?_, ?_, ?_⟩
  · simp [confidence_interval, pyTry]
  · apply mul_nonneg _ hppf
    rw [semT, if_neg hn1]
    simp only [RTerm.evalR]
    exact div_nonneg (Real.sqrt_nonneg _) (Real.sqrt_nonneg _)
  · simp only [RTerm.evalR, meanT, if_neg hn0]
    push_cast
    ring
  · simp only [RTerm.evalR, meanT, if_neg hn0]
    push_cast
    ring
  · simp only [RTerm.evalR, meanT, if_neg hn0]
    push_cast
    ring

theorem C9_confidence_interval_symmetric_witness :
    ∃ lo hi : RTerm, ∃ m : ℝ,
      confidence_interval [1, 2] (9 / 10)
        = [("confidence_interval", Value.pairv (.rterm lo) (.rterm hi))] ∧
      0 ≤ m ∧
      m = RTerm.evalR (fun _ _ => 1) (semT [1, 2])
            * (fun _ _ => (1 : ℝ)) ((1 + 9 / 10 : ℚ) / 2) (([1, 2].length : ℤ) - 1) ∧
      RTerm.evalR (fun _ _ => 1) lo
        = (([1, 2].sum : ℚ) : ℝ) / ([1, 2].length : ℝ) - m ∧
      RTerm.evalR (fun _ _ => 1) hi
        = (([1, 2].sum : ℚ) : ℝ) / ([1, 2].length : ℝ) + m ∧
      RTerm.evalR (fun _ _ => 1) lo + RTerm.evalR (fun _ _ => 1) hi
        = 2 * ((([1, 2].sum : ℚ) : ℝ) / ([1, 2].length : ℝ)) :=
  C9_confidence_interval_symmetric (fun _ _ => 1) [1, 2] (9 / 10)
    (by decide) (by norm_num) (by norm_num) (by norm_num)

end MCPCalc
